import Mathlib

/-!
Shallow embedding of the `Simple_Graph` Rust crate (`src/graph.rs`) and
verification of its specification.

Modelling conventions:
* Rust `f64` data values are modelled as exact rationals `ℚ`; the special
  values `f64::INFINITY` / `f64::NEG_INFINITY`, used only to seed the
  min/max scan of `Serie::calculate_max_min`, are the top / bottom
  elements of `WithBot (WithTop ℚ)`.
* `f64::round` (round half away from zero) and the saturating `as usize`
  cast are modelled exactly on `ℚ` / `ℤ` / `ℕ`.
* The external collaborators `Axis`, `line::extrapolate` and `BitMap`
  (separate modules of the crate, not part of `graph.rs`) are modelled
  from the specification; each such definition is marked in its doc
  comment.
-/

attribute [local semireducible] Rat.add Rat.sub Rat.mul Rat.inv

namespace Graph

/-- Model of `f64` together with the two infinities used by the min/max scan. -/
abbrev F64 : Type := WithBot (WithTop ℚ)

/-- Coercion of a finite `f64` value (a rational) into the extended model. -/
def toF64 (q : ℚ) : F64 := ((q : WithTop ℚ) : F64)

/-- Rust `f64::INFINITY`. -/
def INFINITY : F64 := ⊤

/-- Rust `f64::NEG_INFINITY`. -/
def NEG_INFINITY : F64 := ⊥

/-- Computable floor on `ℚ` (agrees with `Int.floor`, see `qfloor_eq`). -/
def qfloor (q : ℚ) : ℤ := q.num / q.den

/-- Rust `f64::round`: round half away from zero. -/
def qround (q : ℚ) : ℤ := if 0 ≤ q then qfloor (q + 1/2) else -qfloor (-(q - 1/2))

/-- Rust `as usize` cast of a rounded value: negative values saturate to `0`. -/
def roundToUsize (q : ℚ) : ℕ := (qround q).toNat

theorem qfloor_eq (q : ℚ) : qfloor q = ⌊q⌋ := (Rat.floor_def).symm

theorem qround_eq (q : ℚ) : qround q = if 0 ≤ q then ⌊q + 1/2⌋ else ⌈q - 1/2⌉ := by
  rw [qround, qfloor_eq, qfloor_eq, Int.floor_neg, neg_neg]

theorem qround_zero : qround 0 = 0 := by decide

theorem qround_nonneg {q : ℚ} (h : 0 ≤ q) : 0 ≤ qround q := by
  rw [qround_eq, if_pos h]
  positivity

theorem qround_le {q : ℚ} {n : ℤ} (h0 : 0 ≤ q) (h : q ≤ n) : qround q ≤ n := by
  rw [qround_eq, if_pos h0, Int.floor_le_iff]
  linarith

theorem qround_intCast (n : ℤ) : qround n = n := by
  rw [qround_eq]
  split
  · rw [Int.floor_eq_iff]
    constructor
    · linarith
    · linarith
  · rw [Int.ceil_eq_iff]
    constructor
    · linarith
    · linarith

/-- Layout constant `W_ARROW` (width of the axis arrow head). -/
def W_ARROW : ℕ := 4

/-- Layout constant `W_NUMBER` (number width in pixels). -/
def W_NUMBER : ℕ := 4

/-- Layout constant `H_NUMBER` (number height in pixels). -/
def H_NUMBER : ℕ := 5

/-- Layout constant `W_BORDER` (space around the graph). -/
def W_BORDER : ℕ := 1

/-- Layout constant `H_ARROW_HALF` (arrow half height). -/
def H_ARROW_HALF : ℕ := 3

/-- Layout constant `LEFT_SHIFT = W_BORDER + W_NUMBER + H_NUMBER`. -/
def LEFT_SHIFT : ℕ := W_BORDER + W_NUMBER + H_NUMBER

/-- Layout constant `RIGHT_SHIFT = W_ARROW`. -/
def RIGHT_SHIFT : ℕ := W_ARROW

/-- The error enum `GraphError` of `graph.rs`. -/
inductive GraphError where
  | NotEnoughPoints
  | NotEnoughSpace
  | NonUniquePoints
deriving DecidableEq, Repr

/-- Data-space point `Point { x: f64, y: f64 }`. -/
structure Point where
  x : ℚ
  y : ℚ
deriving DecidableEq, Repr

/-- Pixel-space point `DisplayPoint { x: usize, y: usize }`. -/
structure DisplayPoint where
  x : ℕ
  y : ℕ
deriving DecidableEq, Repr

instance : Inhabited Point := ⟨⟨0, 0⟩⟩

/-- The state of the four local accumulators of `Serie::calculate_max_min`. -/
structure Bounds where
  max_x : F64
  min_x : F64
  max_y : F64
  min_y : F64

/-- Loop body of `Serie::calculate_max_min`: the four relaxation `if`s. -/
def calculate_max_min_step (b : Bounds) (p : Point) : Bounds :=
  let b1 := if toF64 p.x > b.max_x then { b with max_x := toF64 p.x } else b
  let b2 := if toF64 p.x < b1.min_x then { b1 with min_x := toF64 p.x } else b1
  let b3 := if toF64 p.y > b2.max_y then { b2 with max_y := toF64 p.y } else b2
  if toF64 p.y < b3.min_y then { b3 with min_y := toF64 p.y } else b3

/-- `Serie::calculate_max_min`: one traversal, bounds seeded with `±∞`. -/
def calculate_max_min (iter : List Point) : Bounds :=
  iter.foldl calculate_max_min_step
    { max_x := NEG_INFINITY, min_x := INFINITY, max_y := NEG_INFINITY, min_y := INFINITY }

theorem calculate_max_min_step_min_x (b : Bounds) (p : Point) :
    (calculate_max_min_step b p).min_x =
      if toF64 p.x < b.min_x then toF64 p.x else b.min_x := by
  rw [calculate_max_min_step]
  split_ifs <;> rfl

theorem calculate_max_min_step_max_x (b : Bounds) (p : Point) :
    (calculate_max_min_step b p).max_x =
      if toF64 p.x > b.max_x then toF64 p.x else b.max_x := by
  rw [calculate_max_min_step]
  split_ifs <;> rfl

theorem calculate_max_min_step_min_y (b : Bounds) (p : Point) :
    (calculate_max_min_step b p).min_y =
      if toF64 p.y < b.min_y then toF64 p.y else b.min_y := by
  rw [calculate_max_min_step]
  split_ifs <;> rfl

theorem calculate_max_min_step_max_y (b : Bounds) (p : Point) :
    (calculate_max_min_step b p).max_y =
      if toF64 p.y > b.max_y then toF64 p.y else b.max_y := by
  rw [calculate_max_min_step]
  split_ifs <;> rfl

theorem foldl_step_min_x_le_init (l : List Point) (b : Bounds) :
    (l.foldl calculate_max_min_step b).min_x ≤ b.min_x := by
  induction l generalizing b with
  | nil => exact le_refl _
  | cons p t ih =>
    refine le_trans (ih (calculate_max_min_step b p)) ?_
    rw [calculate_max_min_step_min_x]
    split_ifs with h
    · exact le_of_lt h
    · exact le_refl _

theorem foldl_step_max_x_le_init (l : List Point) (b : Bounds) :
    b.max_x ≤ (l.foldl calculate_max_min_step b).max_x := by
  induction l generalizing b with
  | nil => exact le_refl _
  | cons p t ih =>
    refine le_trans ?_ (ih (calculate_max_min_step b p))
    rw [calculate_max_min_step_max_x]
    split_ifs with h
    · exact le_of_lt h
    · exact le_refl _

theorem foldl_step_min_y_le_init (l : List Point) (b : Bounds) :
    (l.foldl calculate_max_min_step b).min_y ≤ b.min_y := by
  induction l generalizing b with
  | nil => exact le_refl _
  | cons p t ih =>
    refine le_trans (ih (calculate_max_min_step b p)) ?_
    rw [calculate_max_min_step_min_y]
    split_ifs with h
    · exact le_of_lt h
    · exact le_refl _

theorem foldl_step_max_y_le_init (l : List Point) (b : Bounds) :
    b.max_y ≤ (l.foldl calculate_max_min_step b).max_y := by
  induction l generalizing b with
  | nil => exact le_refl _
  | cons p t ih =>
    refine le_trans ?_ (ih (calculate_max_min_step b p))
    rw [calculate_max_min_step_max_y]
    split_ifs with h
    · exact le_of_lt h
    · exact le_refl _

theorem foldl_step_min_x_le (l : List Point) (b : Bounds) {p : Point} (hp : p ∈ l) :
    (l.foldl calculate_max_min_step b).min_x ≤ toF64 p.x := by
  induction l generalizing b with
  | nil => cases hp
  | cons q t ih =>
    rcases List.mem_cons.mp hp with h | h
    · subst h
      refine le_trans (foldl_step_min_x_le_init t _) ?_
      rw [calculate_max_min_step_min_x]
      split_ifs with hc
      · exact le_refl _
      · exact le_of_not_lt hc
    · exact ih _ h

theorem foldl_step_le_max_x (l : List Point) (b : Bounds) {p : Point} (hp : p ∈ l) :
    toF64 p.x ≤ (l.foldl calculate_max_min_step b).max_x := by
  induction l generalizing b with
  | nil => cases hp
  | cons q t ih =>
    rcases List.mem_cons.mp hp with h | h
    · subst h
      refine le_trans ?_ (foldl_step_max_x_le_init t _)
      rw [calculate_max_min_step_max_x]
      split_ifs with hc
      · exact le_refl _
      · exact le_of_not_lt hc
    · exact ih _ h

theorem foldl_step_min_y_le (l : List Point) (b : Bounds) {p : Point} (hp : p ∈ l) :
    (l.foldl calculate_max_min_step b).min_y ≤ toF64 p.y := by
  induction l generalizing b with
  | nil => cases hp
  | cons q t ih =>
    rcases List.mem_cons.mp hp with h | h
    · subst h
      refine le_trans (foldl_step_min_y_le_init t _) ?_
      rw [calculate_max_min_step_min_y]
      split_ifs with hc
      · exact le_refl _
      · exact le_of_not_lt hc
    · exact ih _ h

theorem foldl_step_le_max_y (l : List Point) (b : Bounds) {p : Point} (hp : p ∈ l) :
    toF64 p.y ≤ (l.foldl calculate_max_min_step b).max_y := by
  induction l generalizing b with
  | nil => cases hp
  | cons q t ih =>
    rcases List.mem_cons.mp hp with h | h
    · subst h
      refine le_trans ?_ (foldl_step_max_y_le_init t _)
      rw [calculate_max_min_step_max_y]
      split_ifs with hc
      · exact le_refl _
      · exact le_of_not_lt hc
    · exact ih _ h

/-- The struct `Serie` (the point producer is modelled as a list). -/
structure Serie where
  iter : List Point
  color : String
  max_x : F64
  max_y : F64
  min_x : F64
  min_y : F64
deriving DecidableEq

/-- `Serie::new`: validates the point source, then computes the bounds.
`iter.clone().nth(1).is_none()` means the source has fewer than two points;
`!iter.clone().skip(1).any(move |p| p != first)` means every point after
the first equals the first. -/
def Serie.new (iter : List Point) (color : String) : Except GraphError Serie :=
  if (iter.get? 1).isNone then .error .NotEnoughPoints
  else
    let first := iter.headI
    if (iter.drop 1).any (fun p => p != first) = false then .error .NonUniquePoints
    else
      let b := calculate_max_min iter
      .ok { iter := iter, color := color,
            max_x := b.max_x, max_y := b.max_y, min_x := b.min_x, min_y := b.min_y }

/-- C4: `Serie::new` returns `NotEnoughPoints` exactly when the source
yields fewer than 2 points. -/
theorem serie_new_not_enough_points_iff (iter : List Point) (color : String) :
    Serie.new iter color = .error .NotEnoughPoints ↔ iter.length < 2 := by
  rw [Serie.new]
  by_cases h1 : (iter.get? 1).isNone
  · rw [if_pos h1]
    simp only [Option.isNone_iff_eq_none, List.get?_eq_none] at h1
    constructor
    · intro _
      omega
    · intro _
      rfl
  · rw [if_neg h1]
    simp only [Option.isNone_iff_eq_none, List.get?_eq_none, not_le] at h1
    constructor
    · intro h
      dsimp only at h
      split at h <;> simp_all
    · intro h
      exact absurd h (by omega)

/-- C5: `Serie::new` returns `NonUniquePoints` exactly when the source has
at least two points and every point after the first equals the first. -/
theorem serie_new_non_unique_points_iff (iter : List Point) (color : String) :
    Serie.new iter color = .error .NonUniquePoints ↔
      ∃ first rest, iter = first :: rest ∧ rest ≠ [] ∧ ∀ p ∈ rest, p = first := by
  match iter with
  | [] => simp [Serie.new]
  | [p] => simp [Serie.new]
  | p :: q :: rest =>
    rw [Serie.new, if_neg (by simp)]
    simp only [List.headI, List.drop_succ_cons, List.drop_zero]
    by_cases hany : ((q :: rest).any fun x => x != p) = false
    · rw [if_pos hany]
      simp only [List.any_eq_false, bne_iff_ne, ne_eq, not_not] at hany
      constructor
      · intro _
        exact ⟨p, q :: rest, rfl, by simp, hany⟩
      · intro _
        rfl
    · rw [if_neg hany]
      simp only [List.any_eq_false, bne_iff_ne, ne_eq, not_not] at hany
      constructor
      · intro h
        exact absurd h (by simp)
      · rintro ⟨first, rest', heq, -, hrest⟩
        injection heq with e1 e2
        subst e1
        subst e2
        exact absurd hrest hany

/-- Modelled from the spec: the `Axis` calibration record produced by the
external `Axis` module — `{min_value, max_value, tick_count, tick_pixel_spacing,
orientation}`; `graph.rs` reads the fields `min_value`, `max_value`,
`k_i` (tick count) and `c_i` (tick pixel spacing). -/
structure Axis where
  min_value : ℚ
  max_value : ℚ
  k_i : ℕ
  c_i : ℚ
  horizontal : Bool
deriving DecidableEq, Inhabited, Repr

/-- Finite value of an extended bound (the bounds of a validated serie are
always finite, so the defaults are never relevant). -/
def F64.toRat (v : F64) : ℚ := WithTop.untop' 0 (WithBot.unbot' 0 v)

/-- Modelled from the spec: `Axis::calculate_axis(max_value, min_value,
pixel_extent)`. The nice-tick heuristic is left free by the spec
("implementation is free to choose the rounding heuristic … as long as it
is deterministic"); the model calibrates ten ticks across the usable extent. -/
def Axis.calculate_axis (max_value min_value : F64) (extent : ℕ) : Axis :=
  { min_value := F64.toRat min_value, max_value := F64.toRat max_value,
    k_i := 10, c_i := ((extent - LEFT_SHIFT - RIGHT_SHIFT : ℕ) : ℚ) / 10,
    horizontal := true }

/-- Modelled from the spec: `Axis::rotate` returns a copy with the
horizontal/vertical roles swapped. -/
def Axis.rotate (a : Axis) : Axis := { a with horizontal := !a.horizontal }

/-- Modelled from the spec: `Axis::create_points` yields the pixels of the
calibrated axis line and arrow head; the spec does not reproduce the
coordinates ("full pixel coordinates are produced by the Axis' own
point-generation function, not reproduced here"), so the model leaves the
list abstract (empty). -/
def Axis.create_points (_ : Axis) : List DisplayPoint := []

/-- Modelled from the spec: the external indexed-colour image collaborator
(`BitMap`) — a palette plus a pixel-index buffer, encoded to bytes by
`to_vec`. -/
structure BitMap where
  width : ℕ
  height : ℕ
  palette : List String
  pixels : List ℕ
deriving DecidableEq, Repr

/-- Modelled from the spec: a fresh image with an empty palette. -/
def BitMap.new (width height : ℕ) : BitMap :=
  { width := width, height := height, palette := [], pixels := [] }

/-- Modelled from the spec: colour registration "returns a stable small
integer …, idempotent for repeated identical inputs" — lookup-or-insert
into the palette, returning the index. -/
def BitMap.add_color (b : BitMap) (color : String) : ℕ × BitMap :=
  if color ∈ b.palette then (b.palette.indexOf color, b)
  else (b.palette.length, { b with palette := b.palette ++ [color] })

/-- Modelled from the spec: `add_pixels` copies the working index buffer
into the image representation unchanged. -/
def BitMap.add_pixels (b : BitMap) (pixs : List ℕ) : BitMap :=
  { b with pixels := pixs }

/-- Modelled from the spec: the encoded byte vector carries the pixel-index
buffer one byte per pixel (the fixed format overhead is not modelled). -/
def BitMap.to_vec (b : BitMap) : List ℕ := b.pixels

/-- The struct `Chart` of `graph.rs`. -/
structure Chart where
  width : ℕ
  height : ℕ
  background_color : ℕ
  axis_color : ℕ
  pixs : List ℕ
  picture : BitMap
  axis_x : Option Axis
  axis_y : Option Axis
deriving DecidableEq, Repr

/-- `Chart::new`: validates the canvas size, registers the background and
axis colours (in that order), and fills the pixel buffer with the
background index. -/
def Chart.new (width height : ℕ) (background_color axis_color : String) :
    Except GraphError Chart :=
  if width < 2 * H_NUMBER + 2 * W_NUMBER + W_ARROW + 2 * W_BORDER ∨
      height < 2 * H_NUMBER + 2 * W_NUMBER + W_ARROW + 2 * W_BORDER then
    .error .NotEnoughSpace
  else
    let picture0 := BitMap.new width height
    let background_color_number := (picture0.add_color background_color).1
    let picture1 := (picture0.add_color background_color).2
    let axis_color_number := (picture1.add_color axis_color).1
    let picture2 := (picture1.add_color axis_color).2
    let size := width * height
    let pixs := List.replicate size background_color_number
    .ok { width := width, height := height,
          background_color := background_color_number,
          axis_color := axis_color_number, pixs := pixs, picture := picture2,
          axis_x := none, axis_y := none }

/-- C6: `Chart::new` returns `NotEnoughSpace` exactly when the requested
width or height is below the fixed minimum
`2*H_NUMBER + 2*W_NUMBER + W_ARROW + 2*W_BORDER`, which equals 24 pixels;
the check is independent in each dimension, and in particular a 10×15
chart is rejected. -/
theorem chart_new_not_enough_space_iff (width height : ℕ) (bg ax : String) :
    (Chart.new width height bg ax = .error .NotEnoughSpace ↔
      width < 2 * H_NUMBER + 2 * W_NUMBER + W_ARROW + 2 * W_BORDER ∨
        height < 2 * H_NUMBER + 2 * W_NUMBER + W_ARROW + 2 * W_BORDER) ∧
      2 * H_NUMBER + 2 * W_NUMBER + W_ARROW + 2 * W_BORDER = 24 ∧
      Chart.new 10 15 bg ax = .error .NotEnoughSpace := by
  refine ⟨?_, by decide, ?_⟩
  · rw [Chart.new]
    split_ifs with h
    · exact iff_of_true rfl h
    · refine iff_of_false ?_ h
      intro hc
      exact hc
  · rw [Chart.new, if_pos (by decide)]

/-- C9: after a successful `Chart::new` the pixel buffer has exactly
`width * height` entries, each equal to the background palette index; the
background colour is registered with the fresh palette before the axis
colour, so its index is `0` and (for a distinct axis colour) the axis
index is `1`. -/
theorem chart_new_buffer {width height : ℕ} {bg ax : String} {c : Chart}
    (hok : Chart.new width height bg ax = .ok c) :
    c.pixs.length = width * height ∧
      (∀ v ∈ c.pixs, v = c.background_color) ∧
      c.background_color = 0 ∧ (bg ≠ ax → c.axis_color = 1) := by
  rw [Chart.new] at hok
  split_ifs at hok with h
  have hc := Except.ok.inj hok
  subst hc
  refine ⟨List.length_replicate _ _, fun v hv => List.eq_of_mem_replicate hv, ?_, ?_⟩
  · simp [BitMap.new, BitMap.add_color]
  · intro hne
    simp [BitMap.new, BitMap.add_color, List.mem_singleton, Ne.symm hne]

/-- Witness for C9 at the concrete chart `Chart::new(24, 24, "#ffffff",
"#000000")`. -/
theorem chart_new_buffer_witness :
    (Chart.mk 24 24 0 1 (List.replicate 576 0)
        (BitMap.mk 24 24 ["#ffffff", "#000000"] []) none none).pixs.length = 24 * 24 ∧
      (Chart.mk 24 24 0 1 (List.replicate 576 0)
        (BitMap.mk 24 24 ["#ffffff", "#000000"] []) none none).background_color = 0 ∧
      (Chart.mk 24 24 0 1 (List.replicate 576 0)
        (BitMap.mk 24 24 ["#ffffff", "#000000"] []) none none).axis_color = 1 := by
  have h := chart_new_buffer
    (rfl :
      Chart.new 24 24 "#ffffff" "#000000" =
        Except.ok (Chart.mk 24 24 0 1 (List.replicate 576 0)
          (BitMap.mk 24 24 ["#ffffff", "#000000"] []) none none))
  exact ⟨h.1, h.2.2.1, h.2.2.2 (by decide)⟩

/-- C3: for every successfully constructed `Serie`, the stored bounds
enclose every source point: `min_x ≤ p.x ≤ max_x` and `min_y ≤ p.y ≤ max_y`
(the bounds are the result of the single `±∞`-seeded relaxation scan
`calculate_max_min`). -/
theorem serie_new_bounds {iter : List Point} {color : String} {s : Serie}
    (hok : Serie.new iter color = .ok s) {p : Point} (hp : p ∈ iter) :
    s.min_x ≤ toF64 p.x ∧ toF64 p.x ≤ s.max_x ∧
      s.min_y ≤ toF64 p.y ∧ toF64 p.y ≤ s.max_y := by
  rw [Serie.new] at hok
  split at hok
  · exact absurd hok (by simp)
  · dsimp only at hok
    split at hok
    · exact absurd hok (by simp)
    · injection hok with hs
      subst hs
      exact ⟨foldl_step_min_x_le iter _ hp, foldl_step_le_max_x iter _ hp,
        foldl_step_min_y_le iter _ hp, foldl_step_le_max_y iter _ hp⟩

/-- Witness for C3 at the concrete serie `[(0,0), (1,2)]`. -/
theorem serie_new_bounds_witness :
    (Serie.mk [⟨0, 0⟩, ⟨1, 2⟩] "c" (toF64 1) (toF64 2) (toF64 0) (toF64 0)).min_x ≤ toF64 1 ∧
      toF64 1 ≤ (Serie.mk [⟨0, 0⟩, ⟨1, 2⟩] "c" (toF64 1) (toF64 2) (toF64 0) (toF64 0)).max_x ∧
      (Serie.mk [⟨0, 0⟩, ⟨1, 2⟩] "c" (toF64 1) (toF64 2) (toF64 0) (toF64 0)).min_y ≤ toF64 2 ∧
      toF64 2 ≤ (Serie.mk [⟨0, 0⟩, ⟨1, 2⟩] "c" (toF64 1) (toF64 2) (toF64 0) (toF64 0)).max_y :=
  serie_new_bounds
    (rfl :
      Serie.new [⟨0, 0⟩, ⟨1, 2⟩] "c" =
        Except.ok (Serie.mk [⟨0, 0⟩, ⟨1, 2⟩] "c" (toF64 1) (toF64 2) (toF64 0) (toF64 0)))
    (by decide : (⟨1, 2⟩ : Point) ∈ [(⟨0, 0⟩ : Point), ⟨1, 2⟩])

/-- Per-point body of the closure built by `Chart::serie_to_points`:
compute the two resolutions from the axis calibrations and the usable
extents, round the scaled offsets, clamp an index that equals the canvas
extent, then shift by `LEFT_SHIFT`. -/
def map_point (width height : ℕ) (axis_x axis_y : Axis) (p : Point) : DisplayPoint :=
  let width_available := width - LEFT_SHIFT - RIGHT_SHIFT
  let height_available := height - LEFT_SHIFT - RIGHT_SHIFT
  let resolution_x : ℚ := (axis_x.max_value - axis_x.min_value) / (width_available : ℚ)
  let resolution_y : ℚ := (axis_y.max_value - axis_y.min_value) / (height_available : ℚ)
  let id_x0 := roundToUsize ((p.x - axis_x.min_value) / resolution_x)
  let id_y0 := roundToUsize ((p.y - axis_y.min_value) / resolution_y)
  let id_x := if id_x0 = width then id_x0 - 1 else id_x0
  let id_y := if id_y0 = height then id_y0 - 1 else id_y0
  { x := id_x + LEFT_SHIFT, y := id_y + LEFT_SHIFT }

/-- `Chart::serie_to_points`: every serie point through the mapping closure
(the chart's unwrapped axes are passed explicitly). -/
def serie_to_points (width height : ℕ) (axis_x axis_y : Axis) (s : Serie) :
    List DisplayPoint :=
  s.iter.map (map_point width height axis_x axis_y)

theorem roundToUsize_zero : roundToUsize 0 = 0 := by decide

theorem roundToUsize_le_of_le {q : ℚ} {n : ℕ} (h0 : 0 ≤ q) (h : q ≤ n) :
    roundToUsize q ≤ n := by
  have hle := qround_le h0 (n := (n : ℤ)) (by exact_mod_cast h)
  rw [roundToUsize]
  omega

theorem mapped_index_le {mn mx v : ℚ} {W : ℕ} (h1 : mn ≤ v) (h2 : v ≤ mx)
    (hlt : mn < mx) :
    roundToUsize ((v - mn) / ((mx - mn) / (W : ℚ))) ≤ W := by
  rcases Nat.eq_zero_or_pos W with h0 | hpos
  · subst h0
    rw [Nat.cast_zero, div_zero, div_zero, roundToUsize_zero]
  · have hW0 : (W : ℚ) ≠ 0 := by
      exact_mod_cast Nat.pos_iff_ne_zero.mp hpos
    have hres : 0 < (mx - mn) / (W : ℚ) :=
      div_pos (sub_pos.mpr hlt) (by exact_mod_cast hpos)
    apply roundToUsize_le_of_le (div_nonneg (sub_nonneg.mpr h1) hres.le)
    rw [div_le_iff₀ hres, mul_comm, div_mul_cancel₀ _ hW0]
    exact sub_le_sub_right h2 mn

/-- C1: for a validated chart (both extents at least 24) and a data point
inside the axis calibration, `map_point` computes exactly
`round((p - min) / ((max - min) / usable)) + LEFT_SHIFT` in each dimension
(the clamp never fires there), and the point
`(axis_x.min_value, axis_y.min_value)` maps to `(LEFT_SHIFT, LEFT_SHIFT)`. -/
theorem map_point_formula (width height : ℕ) (axis_x axis_y : Axis) (p : Point)
    (hw : 24 ≤ width) (hh : 24 ≤ height)
    (hx1 : axis_x.min_value ≤ p.x) (hx2 : p.x ≤ axis_x.max_value)
    (hy1 : axis_y.min_value ≤ p.y) (hy2 : p.y ≤ axis_y.max_value)
    (hax : axis_x.min_value < axis_x.max_value)
    (hay : axis_y.min_value < axis_y.max_value) :
    map_point width height axis_x axis_y p =
      { x := roundToUsize ((p.x - axis_x.min_value) /
            ((axis_x.max_value - axis_x.min_value) /
              ((width - LEFT_SHIFT - RIGHT_SHIFT : ℕ) : ℚ))) + LEFT_SHIFT,
        y := roundToUsize ((p.y - axis_y.min_value) /
            ((axis_y.max_value - axis_y.min_value) /
              ((height - LEFT_SHIFT - RIGHT_SHIFT : ℕ) : ℚ))) + LEFT_SHIFT } ∧
      map_point width height axis_x axis_y
          { x := axis_x.min_value, y := axis_y.min_value } =
        { x := LEFT_SHIFT, y := LEFT_SHIFT } := by
  have hxle := mapped_index_le (W := width - LEFT_SHIFT - RIGHT_SHIFT) hx1 hx2 hax
  have hyle := mapped_index_le (W := height - LEFT_SHIFT - RIGHT_SHIFT) hy1 hy2 hay
  have hLS : LEFT_SHIFT = 10 := by decide
  have hRS : RIGHT_SHIFT = 4 := by decide
  constructor
  · rw [map_point]
    rw [if_neg (by omega), if_neg (by omega)]
  · rw [map_point]
    simp only [sub_self, zero_div, roundToUsize_zero]
    rw [if_neg (by omega), if_neg (by omega)]
    simp only [Nat.zero_add]

/-- C2: a data point inside the axis calibration maps, on a validated
chart, to a display point with `x < width` and `y < height`, so the write
of `draw_pixels` at buffer index `y * width + x` stays inside the
`width * height` pixel buffer. -/
theorem map_point_in_bounds (width height : ℕ) (axis_x axis_y : Axis) (p : Point)
    (hw : 24 ≤ width) (hh : 24 ≤ height)
    (hx1 : axis_x.min_value ≤ p.x) (hx2 : p.x ≤ axis_x.max_value)
    (hy1 : axis_y.min_value ≤ p.y) (hy2 : p.y ≤ axis_y.max_value)
    (hax : axis_x.min_value < axis_x.max_value)
    (hay : axis_y.min_value < axis_y.max_value) :
    (map_point width height axis_x axis_y p).x < width ∧
      (map_point width height axis_x axis_y p).y < height ∧
      (map_point width height axis_x axis_y p).y * width +
          (map_point width height axis_x axis_y p).x < width * height := by
  have hxle := mapped_index_le (W := width - LEFT_SHIFT - RIGHT_SHIFT) hx1 hx2 hax
  have hyle := mapped_index_le (W := height - LEFT_SHIFT - RIGHT_SHIFT) hy1 hy2 hay
  have hLS : LEFT_SHIFT = 10 := by decide
  have hRS : RIGHT_SHIFT = 4 := by decide
  have hx : (map_point width height axis_x axis_y p).x < width := by
    rw [map_point]
    simp only
    rw [if_neg (by omega)]
    omega
  have hy : (map_point width height axis_x axis_y p).y < height := by
    rw [map_point]
    simp only
    rw [if_neg (by omega)]
    omega
  refine ⟨hx, hy, ?_⟩
  have h1 : (map_point width height axis_x axis_y p).y * width + width ≤
      height * width := by
    have := Nat.succ_le_of_lt hy
    calc (map_point width height axis_x axis_y p).y * width + width
        = ((map_point width height axis_x axis_y p).y + 1) * width := by ring
      _ ≤ height * width := Nat.mul_le_mul_right _ this
  calc (map_point width height axis_x axis_y p).y * width +
        (map_point width height axis_x axis_y p).x
      < (map_point width height axis_x axis_y p).y * width + width := by omega
    _ ≤ height * width := h1
    _ = width * height := Nat.mul_comm _ _

/-- Witness for C1 on a 24×24 chart with calibration `[0, 10]` in both
dimensions and the extreme data point `(10, 10)`. -/
theorem map_point_formula_witness :
    map_point 24 24 (Axis.mk 0 10 10 1 true) (Axis.mk 0 10 10 1 false) ⟨10, 10⟩ =
      { x := roundToUsize ((10 - 0) / ((10 - 0) / ((24 - LEFT_SHIFT - RIGHT_SHIFT : ℕ) : ℚ))) + LEFT_SHIFT,
        y := roundToUsize ((10 - 0) / ((10 - 0) / ((24 - LEFT_SHIFT - RIGHT_SHIFT : ℕ) : ℚ))) + LEFT_SHIFT } ∧
      map_point 24 24 (Axis.mk 0 10 10 1 true) (Axis.mk 0 10 10 1 false) ⟨0, 0⟩ =
        { x := LEFT_SHIFT, y := LEFT_SHIFT } :=
  map_point_formula 24 24 (Axis.mk 0 10 10 1 true) (Axis.mk 0 10 10 1 false) ⟨10, 10⟩
    (by decide) (by decide) (by decide) (by decide) (by decide) (by decide)
    (by decide) (by decide)

/-- Witness for C2 on the same 24×24 chart and extreme data point. -/
theorem map_point_in_bounds_witness :
    (map_point 24 24 (Axis.mk 0 10 10 1 true) (Axis.mk 0 10 10 1 false) ⟨10, 10⟩).x < 24 ∧
      (map_point 24 24 (Axis.mk 0 10 10 1 true) (Axis.mk 0 10 10 1 false) ⟨10, 10⟩).y < 24 ∧
      (map_point 24 24 (Axis.mk 0 10 10 1 true) (Axis.mk 0 10 10 1 false) ⟨10, 10⟩).y * 24 +
        (map_point 24 24 (Axis.mk 0 10 10 1 true) (Axis.mk 0 10 10 1 false) ⟨10, 10⟩).x < 24 * 24 :=
  map_point_in_bounds 24 24 (Axis.mk 0 10 10 1 true) (Axis.mk 0 10 10 1 false) ⟨10, 10⟩
    (by decide) (by decide) (by decide) (by decide) (by decide) (by decide)
    (by decide) (by decide)

/-- `Chart::get_minor_net`: the dashed minor grid. For each x-axis tick
index `i` a vertical dashed line at column `LEFT_SHIFT + round(c_i * i)`
over the odd rows of `LEFT_SHIFT..(height - H_ARROW_HALF)`; mirrored for
the y-axis ticks. -/
def get_minor_net (width height : ℕ) (axis_x axis_y : Axis) : List DisplayPoint :=
  ((List.range axis_x.k_i).map (fun (i : ℕ) =>
      ((List.range' LEFT_SHIFT (height - H_ARROW_HALF - LEFT_SHIFT)).filter
          (fun j => j % 2 != 0)).map
        (fun j => DisplayPoint.mk (LEFT_SHIFT + roundToUsize (axis_x.c_i * (i : ℚ))) j))).flatten
    ++
  ((List.range axis_y.k_i).map (fun (i : ℕ) =>
      ((List.range' LEFT_SHIFT (width - H_ARROW_HALF - LEFT_SHIFT)).filter
          (fun j => j % 2 != 0)).map
        (fun j => DisplayPoint.mk j (LEFT_SHIFT + roundToUsize (axis_y.c_i * (i : ℚ)))))).flatten

/-- C8: the minor grid paints, for every x-axis tick `i < k_i`, each odd
row `j` with `LEFT_SHIFT ≤ j < height - H_ARROW_HALF` at column
`LEFT_SHIFT + round(c_i * i)`; symmetrically each y-axis tick paints the
odd columns of its row. -/
theorem get_minor_net_mem (width height : ℕ) (axis_x axis_y : Axis) :
    (∀ i j, i < axis_x.k_i → LEFT_SHIFT ≤ j → j < height - H_ARROW_HALF →
      j % 2 = 1 →
      DisplayPoint.mk (LEFT_SHIFT + roundToUsize (axis_x.c_i * (i : ℚ))) j ∈
        get_minor_net width height axis_x axis_y) ∧
    (∀ i j, i < axis_y.k_i → LEFT_SHIFT ≤ j → j < width - H_ARROW_HALF →
      j % 2 = 1 →
      DisplayPoint.mk j (LEFT_SHIFT + roundToUsize (axis_y.c_i * (i : ℚ))) ∈
        get_minor_net width height axis_x axis_y) := by
  have hLS : LEFT_SHIFT = 10 := by decide
  have hHA : H_ARROW_HALF = 3 := by decide
  constructor
  · intro i j hi hj1 hj2 hj3
    rw [get_minor_net]
    apply List.mem_append_left
    refine List.mem_flatten.mpr ⟨_, List.mem_map_of_mem _ (List.mem_range.mpr hi), ?_⟩
    exact List.mem_map_of_mem _
      (List.mem_filter.mpr ⟨List.mem_range'_1.mpr ⟨hj1, by omega⟩, by simp [hj3]⟩)
  · intro i j hi hj1 hj2 hj3
    rw [get_minor_net]
    apply List.mem_append_right
    refine List.mem_flatten.mpr ⟨_, List.mem_map_of_mem _ (List.mem_range.mpr hi), ?_⟩
    exact List.mem_map_of_mem _
      (List.mem_filter.mpr ⟨List.mem_range'_1.mpr ⟨hj1, by omega⟩, by simp [hj3]⟩)

/-- Witness for C8: on a 24×24 chart with ten ticks per axis, tick 0 paints
the odd row 11 of its vertical line and the odd column 13 of its
horizontal line. -/
theorem get_minor_net_mem_witness :
    DisplayPoint.mk (LEFT_SHIFT + roundToUsize ((Axis.mk 0 10 10 1 true).c_i * ((0 : ℕ) : ℚ))) 11 ∈
      get_minor_net 24 24 (Axis.mk 0 10 10 1 true) (Axis.mk 0 10 10 1 false) ∧
    DisplayPoint.mk 13 (LEFT_SHIFT + roundToUsize ((Axis.mk 0 10 10 1 false).c_i * ((0 : ℕ) : ℚ))) ∈
      get_minor_net 24 24 (Axis.mk 0 10 10 1 true) (Axis.mk 0 10 10 1 false) :=
  ⟨(get_minor_net_mem 24 24 (Axis.mk 0 10 10 1 true) (Axis.mk 0 10 10 1 false)).1 0 11
      (by decide) (by decide) (by decide) (by decide),
    (get_minor_net_mem 24 24 (Axis.mk 0 10 10 1 true) (Axis.mk 0 10 10 1 false)).2 0 13
      (by decide) (by decide) (by decide) (by decide)⟩

/-- Modelled from the spec: one segment of the external gap-fill rasterizer
`line::extrapolate` — classic incremental line interpolation. For pixel
delta `(dx, dy)` the axis with the larger absolute delta drives: one pixel
per step along it, with the proportional rounded position on the other
axis; a degenerate segment (`dx == dy == 0`) yields just its single point. -/
def extrapolate_segment (a b : DisplayPoint) : List DisplayPoint :=
  if (b.x : ℤ) - (a.x : ℤ) = 0 ∧ (b.y : ℤ) - (a.y : ℤ) = 0 then [a]
  else if ((b.y : ℤ) - (a.y : ℤ)).natAbs ≤ ((b.x : ℤ) - (a.x : ℤ)).natAbs then
    (List.range (((b.x : ℤ) - (a.x : ℤ)).natAbs + 1)).map (fun (t : ℕ) =>
      DisplayPoint.mk ((a.x : ℤ) + ((b.x : ℤ) - (a.x : ℤ)).sign * (t : ℤ)).toNat
        (roundToUsize ((a.y : ℚ) + (((b.y : ℤ) - (a.y : ℤ) : ℤ) : ℚ) * (t : ℚ) /
          ((((b.x : ℤ) - (a.x : ℤ)).natAbs : ℕ) : ℚ))))
  else
    (List.range (((b.y : ℤ) - (a.y : ℤ)).natAbs + 1)).map (fun (t : ℕ) =>
      DisplayPoint.mk (roundToUsize ((a.x : ℚ) + (((b.x : ℤ) - (a.x : ℤ) : ℤ) : ℚ) * (t : ℚ) /
          ((((b.y : ℤ) - (a.y : ℤ)).natAbs : ℕ) : ℚ)))
        ((a.y : ℤ) + ((b.y : ℤ) - (a.y : ℤ)).sign * (t : ℤ)).toNat)

theorem roundToUsize_natCast (m : ℕ) : roundToUsize (m : ℚ) = m := by
  have h : ((m : ℤ) : ℚ) = (m : ℚ) := by push_cast; rfl
  rw [roundToUsize, ← h, qround_intCast]
  omega

/-- C7: each rasterized segment contains both of its endpoints, every two
successive pixels of it differ by exactly one on the driving axis (the
axis with the larger absolute delta), and a degenerate segment is exactly
the single point, with no error. -/
theorem extrapolate_segment_spec (a b : DisplayPoint) :
    a ∈ extrapolate_segment a b ∧
      b ∈ extrapolate_segment a b ∧
      (∀ t p q, (extrapolate_segment a b).get? t = some p →
        (extrapolate_segment a b).get? (t + 1) = some q →
        (if ((b.y : ℤ) - (a.y : ℤ)).natAbs ≤ ((b.x : ℤ) - (a.x : ℤ)).natAbs
          then (q.x : ℤ) - (p.x : ℤ)
          else (q.y : ℤ) - (p.y : ℤ)).natAbs = 1) ∧
      (a = b → extrapolate_segment a b = [a]) := by
  obtain ⟨ax, ay⟩ := a
  obtain ⟨bx, by'⟩ := b
  by_cases hdeg : (bx : ℤ) - (ax : ℤ) = 0 ∧ (by' : ℤ) - (ay : ℤ) = 0
  · have hseg : extrapolate_segment ⟨ax, ay⟩ ⟨bx, by'⟩ = [⟨ax, ay⟩] := by
      rw [extrapolate_segment, if_pos hdeg]
    have hba : (⟨bx, by'⟩ : DisplayPoint) = ⟨ax, ay⟩ := by
      obtain ⟨h1, h2⟩ := hdeg
      simp only [DisplayPoint.mk.injEq]
      omega
    refine ⟨?_, ?_, ?_, fun _ => hseg⟩
    · rw [hseg]
      exact List.mem_singleton_self _
    · rw [hseg, hba]
      exact List.mem_singleton_self _
    · intro t p q hp hq
      rw [hseg] at hq
      simp [List.get?] at hq
  · by_cases hdrive : ((by' : ℤ) - (ay : ℤ)).natAbs ≤ ((bx : ℤ) - (ax : ℤ)).natAbs
    · have hdx0 : (bx : ℤ) - (ax : ℤ) ≠ 0 := by
        intro h0
        exact hdeg ⟨h0, by omega⟩
      have hn0 : ((bx : ℤ) - (ax : ℤ)).natAbs ≠ 0 := Int.natAbs_ne_zero.mpr hdx0
      have hnq : (((((bx : ℤ) - (ax : ℤ)).natAbs : ℕ)) : ℚ) ≠ 0 := by
        exact_mod_cast hn0
      have hseg : extrapolate_segment ⟨ax, ay⟩ ⟨bx, by'⟩ =
          (List.range (((bx : ℤ) - (ax : ℤ)).natAbs + 1)).map (fun (t : ℕ) =>
            DisplayPoint.mk ((ax : ℤ) + ((bx : ℤ) - (ax : ℤ)).sign * (t : ℤ)).toNat
              (roundToUsize ((ay : ℚ) + (((by' : ℤ) - (ay : ℤ) : ℤ) : ℚ) * (t : ℚ) /
                ((((bx : ℤ) - (ax : ℤ)).natAbs : ℕ) : ℚ)))) := by
        rw [extrapolate_segment, if_neg hdeg, if_pos hdrive]
      refine ⟨?_, ?_, ?_, ?_⟩
      · rw [hseg]
        refine List.mem_map.mpr ⟨0, List.mem_range.mpr (by omega), ?_⟩
        simp only [Nat.cast_zero, Int.mul_zero, Int.add_zero, Rat.mul_zero, zero_div,
          add_zero, mul_zero, DisplayPoint.mk.injEq]
        constructor
        · omega
        · rw [roundToUsize_natCast]
      · rw [hseg]
        refine List.mem_map.mpr
          ⟨((bx : ℤ) - (ax : ℤ)).natAbs, List.mem_range.mpr (by omega), ?_⟩
        have hx : (ax : ℤ) + ((bx : ℤ) - (ax : ℤ)).sign *
            ((((bx : ℤ) - (ax : ℤ)).natAbs : ℕ) : ℤ) = (bx : ℤ) := by
          rw [Int.sign_mul_natAbs]
          omega
        have hy : (ay : ℚ) + (((by' : ℤ) - (ay : ℤ) : ℤ) : ℚ) *
              ((((bx : ℤ) - (ax : ℤ)).natAbs : ℕ) : ℚ) /
              ((((bx : ℤ) - (ax : ℤ)).natAbs : ℕ) : ℚ) = ((by' : ℕ) : ℚ) := by
          rw [mul_div_assoc, div_self hnq, mul_one]
          push_cast
          ring
        simp only [DisplayPoint.mk.injEq]
        constructor
        · rw [hx]
          omega
        · rw [hy, roundToUsize_natCast]
      · intro t p q hp hq
        rw [hseg] at hp hq
        rw [if_pos hdrive]
        have hq' := hq
        rw [List.get?_eq_some] at hq'
        obtain ⟨hlt, -⟩ := hq'
        simp only [List.length_map, List.length_range] at hlt
        rw [List.get?_map, List.get?_range (by omega : t < ((bx : ℤ) - (ax : ℤ)).natAbs + 1),
          Option.map_some'] at hp
        rw [List.get?_map, List.get?_range hlt, Option.map_some'] at hq
        injection hp with hp'
        injection hq with hq'
        subst hp'
        subst hq'
        dsimp only
        rcases hdx0.lt_or_lt with hneg | hpos
        · rw [Int.sign_eq_neg_one_iff_neg.mpr hneg]
          omega
        · rw [Int.sign_eq_one_iff_pos.mpr hpos]
          omega
      · intro hab
        injection hab with h1 h2
        exact absurd (show (bx : ℤ) - (ax : ℤ) = 0 by omega) hdx0
    · have hdy0 : (by' : ℤ) - (ay : ℤ) ≠ 0 := by
        intro h0
        rw [h0] at hdrive
        simp at hdrive
      have hn0 : ((by' : ℤ) - (ay : ℤ)).natAbs ≠ 0 := Int.natAbs_ne_zero.mpr hdy0
      have hnq : (((((by' : ℤ) - (ay : ℤ)).natAbs : ℕ)) : ℚ) ≠ 0 := by
        exact_mod_cast hn0
      have hseg : extrapolate_segment ⟨ax, ay⟩ ⟨bx, by'⟩ =
          (List.range (((by' : ℤ) - (ay : ℤ)).natAbs + 1)).map (fun (t : ℕ) =>
            DisplayPoint.mk (roundToUsize ((ax : ℚ) + (((bx : ℤ) - (ax : ℤ) : ℤ) : ℚ) * (t : ℚ) /
                ((((by' : ℤ) - (ay : ℤ)).natAbs : ℕ) : ℚ)))
              ((ay : ℤ) + ((by' : ℤ) - (ay : ℤ)).sign * (t : ℤ)).toNat) := by
        rw [extrapolate_segment, if_neg hdeg, if_neg hdrive]
      refine ⟨?_, ?_, ?_, ?_⟩
      · rw [hseg]
        refine List.mem_map.mpr ⟨0, List.mem_range.mpr (by omega), ?_⟩
        simp only [Nat.cast_zero, Int.mul_zero, Int.add_zero, Rat.mul_zero, zero_div,
          add_zero, mul_zero, DisplayPoint.mk.injEq]
        constructor
        · rw [roundToUsize_natCast]
        · omega
      · rw [hseg]
        refine List.mem_map.mpr
          ⟨((by' : ℤ) - (ay : ℤ)).natAbs, List.mem_range.mpr (by omega), ?_⟩
        have hy : (ay : ℤ) + ((by' : ℤ) - (ay : ℤ)).sign *
            ((((by' : ℤ) - (ay : ℤ)).natAbs : ℕ) : ℤ) = (by' : ℤ) := by
          rw [Int.sign_mul_natAbs]
          omega
        have hx : (ax : ℚ) + (((bx : ℤ) - (ax : ℤ) : ℤ) : ℚ) *
              ((((by' : ℤ) - (ay : ℤ)).natAbs : ℕ) : ℚ) /
              ((((by' : ℤ) - (ay : ℤ)).natAbs : ℕ) : ℚ) = ((bx : ℕ) : ℚ) := by
          rw [mul_div_assoc, div_self hnq, mul_one]
          push_cast
          ring
        simp only [DisplayPoint.mk.injEq]
        constructor
        · rw [hx, roundToUsize_natCast]
        · rw [hy]
          omega
      · intro t p q hp hq
        rw [hseg] at hp hq
        rw [if_neg hdrive]
        have hq' := hq
        rw [List.get?_eq_some] at hq'
        obtain ⟨hlt, -⟩ := hq'
        simp only [List.length_map, List.length_range] at hlt
        rw [List.get?_map, List.get?_range (by omega : t < ((by' : ℤ) - (ay : ℤ)).natAbs + 1),
          Option.map_some'] at hp
        rw [List.get?_map, List.get?_range hlt, Option.map_some'] at hq
        injection hp with hp'
        injection hq with hq'
        subst hp'
        subst hq'
        dsimp only
        rcases hdy0.lt_or_lt with hneg | hpos
        · rw [Int.sign_eq_neg_one_iff_neg.mpr hneg]
          omega
        · rw [Int.sign_eq_one_iff_pos.mpr hpos]
          omega
      · intro hab
        injection hab with h1 h2
        exact absurd (show (by' : ℤ) - (ay : ℤ) = 0 by omega) hdy0

/-- Witness for C7: segment `(0,0)–(2,1)` (x driving), first step, and the
degenerate segment at `(5,7)`. -/
theorem extrapolate_segment_spec_witness :
    (⟨0, 0⟩ : DisplayPoint) ∈ extrapolate_segment ⟨0, 0⟩ ⟨2, 1⟩ ∧
      (⟨2, 1⟩ : DisplayPoint) ∈ extrapolate_segment ⟨0, 0⟩ ⟨2, 1⟩ ∧
      (if (((⟨2, 1⟩ : DisplayPoint).y : ℤ) - ((⟨0, 0⟩ : DisplayPoint).y : ℤ)).natAbs ≤
          (((⟨2, 1⟩ : DisplayPoint).x : ℤ) - ((⟨0, 0⟩ : DisplayPoint).x : ℤ)).natAbs
        then ((⟨1, 1⟩ : DisplayPoint).x : ℤ) - ((⟨0, 0⟩ : DisplayPoint).x : ℤ)
        else ((⟨1, 1⟩ : DisplayPoint).y : ℤ) - ((⟨0, 0⟩ : DisplayPoint).y : ℤ)).natAbs = 1 ∧
      extrapolate_segment ⟨5, 7⟩ ⟨5, 7⟩ = [⟨5, 7⟩] :=
  ⟨(extrapolate_segment_spec ⟨0, 0⟩ ⟨2, 1⟩).1,
    (extrapolate_segment_spec ⟨0, 0⟩ ⟨2, 1⟩).2.1,
    (extrapolate_segment_spec ⟨0, 0⟩ ⟨2, 1⟩).2.2.1 0 ⟨0, 0⟩ ⟨1, 1⟩ (by decide) (by decide),
    (extrapolate_segment_spec ⟨5, 7⟩ ⟨5, 7⟩).2.2.2 rfl⟩

/-- `Chart::draw_pixels`: write `color` at buffer index `y * width + x`
for every point (`List.set` models the write; for calibrated points the
bounds theorem shows the index stays inside the buffer). -/
def draw_pixels (width : ℕ) (pixs : List ℕ) (points : List DisplayPoint) (color : ℕ) :
    List ℕ :=
  points.foldl (fun px p => px.set (p.y * width + p.x) color) pixs

/-- `Chart::draw_axes`: compute both axis calibrations (the y one
rotated), draw the two axis lines and the minor net with the axis colour,
and store the axes on the chart. -/
def draw_axes (c : Chart) (s : Serie) : Chart :=
  let axis_x := Axis.calculate_axis s.max_x s.min_x c.width
  let axis_y := (Axis.calculate_axis s.max_y s.min_y c.height).rotate
  let minor_net := get_minor_net c.width c.height axis_x axis_y
  let pixs1 := draw_pixels c.width c.pixs axis_x.create_points c.axis_color
  let pixs2 := draw_pixels c.width pixs1 axis_y.create_points c.axis_color
  let pixs3 := draw_pixels c.width pixs2 minor_net c.axis_color
  { c with pixs := pixs3, axis_x := some axis_x, axis_y := some axis_y }

/-- Modelled from the spec: the full gap-fill rasterizer
`line::extrapolate` over the whole mapped sequence — the concatenation of
the per-segment interpolations, each segment contributing its pixels up to
(but not including) its endpoint, which the next segment (or the final
point) supplies. -/
def extrapolate : List DisplayPoint → List DisplayPoint
  | [] => []
  | [a] => [a]
  | a :: b :: rest => (extrapolate_segment a b).dropLast ++ extrapolate (b :: rest)

/-- `Chart::create_bmp_vec`: draw axes and grid, map the serie points,
rasterize, draw the curve with a freshly registered serie colour, hand the
buffer to the image collaborator and return its encoded bytes. -/
def create_bmp_vec (c : Chart) (s : Serie) : Except GraphError (List ℕ) :=
  let c1 := draw_axes c s
  let func_points :=
    extrapolate (serie_to_points c1.width c1.height (c1.axis_x.getD default)
      (c1.axis_y.getD default) s)
  let points_color_number := (c1.picture.add_color s.color).1
  let picture1 := (c1.picture.add_color s.color).2
  let pixs := draw_pixels c1.width c1.pixs func_points points_color_number
  let picture2 := picture1.add_pixels pixs
  .ok picture2.to_vec

/-- C10: the render step `Chart::create_bmp_vec` never returns the error
variant: for every chart and serie it returns `Ok` with the encoded byte
vector — the typed failures (`NotEnoughPoints`, `NonUniquePoints`,
`NotEnoughSpace`) can only arise in the constructors `Serie::new` and
`Chart::new`. -/
theorem create_bmp_vec_ok (c : Chart) (s : Serie) :
    ∃ v, create_bmp_vec c s = Except.ok v :=
  ⟨_, rfl⟩

end Graph
